import Mathlib

/-!
Shallow embedding of `src/data_cleaner.py` (a pandas-based CSV cleaning
pipeline).  A table is modelled row-major: a header of column names and a
list of rows, each row a list of cells; a cell is `none` (pandas `NaN`,
the missing marker) or a number or a string.  Numbers are modelled exactly
as rationals; pandas computes with IEEE doubles, but none of the claims
below depends on rounding.
-/

namespace DataCleaner

/-- A present cell value: a number (pandas numeric dtypes) or text
(pandas object dtype cells, which in this pipeline are strings). -/
inductive Value where
  | num : ℚ → Value
  | txt : String → Value
deriving DecidableEq

/-- A cell: `none` models pandas `NaN` / missing. -/
abbrev Cell := Option Value

/-- A row, cells aligned with the header. -/
abbrev Row := List Cell

/-- A pandas DataFrame as used by the script. -/
structure Table where
  header : List String
  rows : List Row
deriving DecidableEq

/-- Data-model invariant: every row has one cell per column. -/
def wellFormed (t : Table) : Prop :=
  ∀ r ∈ t.rows, r.length = t.header.length

instance : DecidablePred wellFormed := fun t =>
  List.decidableBAll _ t.rows

/-- The errors the script can raise (plus the two error kinds named by the
spec, `InvalidStrategyError` and `ComputationError`, which appear nowhere
in the code but are needed to state the spec's claims about them).
`unboundLocalError` is what Python raises at `return cleaned_df` in
`clean_missing_values` when `strategy` matched neither branch, since
`cleaned_df` was never assigned. -/
inductive PyError where
  | unboundLocalError
  | invalidStrategyError
  | computationError
deriving DecidableEq

instance : DecidableEq (Except PyError Table) := fun a b =>
  match a, b with
  | .ok x, .ok y => decidable_of_iff (x = y) (by simp)
  | .error x, .error y => decidable_of_iff (x = y) (by simp)
  | .ok _, .error _ => isFalse fun h => Except.noConfusion h
  | .error _, .ok _ => isFalse fun h => Except.noConfusion h

/-- The cells of column `j`, top to bottom (out-of-range reads give
`none`; well-formed tables never read out of range). -/
def colCells (t : Table) (j : Nat) : List Cell :=
  t.rows.map fun r => r.getD j none

/-- The non-missing values of a column, in row order. -/
def nonMissing (cells : List Cell) : List Value :=
  cells.filterMap id

/-- pandas dtype inference as the pipeline sees it: a column is numeric
iff every non-missing cell is a number (an all-missing column read from
CSV is `float64`, hence numeric — vacuously so here). -/
def isNumericCol (cells : List Cell) : Bool :=
  (nonMissing cells).all fun v =>
    match v with
    | .num _ => true
    | .txt _ => false

/-- The numeric values of a column, in row order. -/
def numsOf (cells : List Cell) : List ℚ :=
  cells.filterMap fun c =>
    match c with
    | some (.num q) => some q
    | _ => none

/-- Arithmetic mean, exact.  (`pandas.Series.mean` skips `NaN`; callers
pass the non-missing values.) -/
def meanOf (vs : List ℚ) : ℚ :=
  vs.sum / (vs.length : ℚ)

/-- The value `Series.fillna` would write into the missing cells of a
column, per `clean_missing_values`'s `fill` branch: the column mean for a
numeric column, the sentinel `"Unknown"` for a text column.  For an
all-missing numeric column `mean()` is `NaN`, and `fillna(NaN)` writes
nothing — modelled as `none` (no fill value). -/
def fillValue (cells : List Cell) : Option Value :=
  if isNumericCol cells then
    if numsOf cells = [] then none else some (.num (meanOf (numsOf cells)))
  else some (.txt "Unknown")

/-- One cell after `fillna f`: a present value is untouched, a missing
cell receives the fill value (still missing when there is none). -/
def fillCell (f : Option Value) (c : Cell) : Cell :=
  match c with
  | some v => some v
  | none => f

/-- The `fill` branch of `clean_missing_values`: each column's fill value
is computed from that column alone before being applied, and columns are
independent, so the per-column loop is a single `zipWith` per row. -/
def fillTable (t : Table) : Table :=
  let fills := (List.range t.header.length).map fun j => fillValue (colCells t j)
  ⟨t.header, t.rows.map fun r => List.zipWith fillCell fills r⟩

/-- Dropna-style row test: `true` iff the row has no missing cell. -/
def hasNoMissing (r : Row) : Bool :=
  r.all fun c => c.isSome

/-- The function `clean_missing_values(df, strategy)`.  `drop` is `df.dropna()` (keep
exactly the rows with no missing cell, in order); `fill` is the per-column
fill above; any other strategy falls through both branches and the final
`return cleaned_df` raises `UnboundLocalError`. -/
def clean_missing_values (t : Table) (strategy : String) : Except PyError Table :=
  if strategy = "drop" then
    .ok ⟨t.header, t.rows.filter hasNoMissing⟩
  else if strategy = "fill" then
    .ok (fillTable t)
  else
    .error .unboundLocalError

/-- Worker for `drop_duplicates`: scan left to right, emitting a row iff
it is not among the rows already seen. -/
def dedupeGo (seen : List Row) : List Row → List Row
  | [] => []
  | r :: rs => if r ∈ seen then dedupeGo seen rs else r :: dedupeGo (r :: seen) rs

/-- The `df.drop_duplicates()` row semantics: keep the first occurrence of
each row, drop later equal rows.  Row equality is cell-by-cell equality
where missing equals missing, exactly as pandas treats `NaN` in
`drop_duplicates`. -/
def dedupeRows (l : List Row) : List Row :=
  dedupeGo [] l

/-- The function `remove_duplicates(df)`: `df.drop_duplicates()` on the rows, columns
untouched. -/
def remove_duplicates (t : Table) : Table :=
  ⟨t.header, dedupeRows t.rows⟩

/-- Modelled from the spec: "keeps the first occurrence in original row
order, drops subsequent occurrences" — a left-to-right scan that emits a
row iff it has not been emitted before.  This is the spec wording of
deduplication, stated independently of `drop_duplicates`, to be compared
with `dedupeRows`. -/
def dedupeSpec (l : List Row) : List Row :=
  l.foldl (fun acc r => if r ∈ acc then acc else acc ++ [r]) []

/-- Key comparison used by the sort.  Within this pipeline a sorted
column is homogeneous (all numbers or all strings); the cross-type cases
are arbitrary tie-breakers that never arise. -/
def leValue : Value → Value → Bool
  | .num a, .num b => decide (a ≤ b)
  | .txt a, .txt b => decide (a ≤ b)
  | .num _, .txt _ => true
  | .txt _, .num _ => false

/-- The sort key of a row: its cell in column `j`. -/
def keyAt (j : Nat) (r : Row) : Cell :=
  r.getD j none

/-- Row comparison by the key in column `j`; only ever applied to rows
whose key is present. -/
def leRowBy (j : Nat) (r s : Row) : Bool :=
  match keyAt j r, keyAt j s with
  | some a, some b => leValue a b
  | _, _ => true

/-- The present-key rows, ordered as pandas' `nargsort` orders them: an
ascending sort sorts them by key; a descending sort reverses the input,
sorts ascending, and reverses the result.  The comparison sort itself is
modelled as a stable merge sort; pandas' default `kind='quicksort'`
promises the same ordered output but does NOT guarantee this tie order,
so only tie-order-insensitive facts proved about this model transfer to
the code. -/
def sortedPresent (j : Nat) (ascending : Bool) (rows : List Row) : List Row :=
  if ascending then
    (rows.filter fun r => (keyAt j r).isSome).mergeSort (leRowBy j)
  else
    (((rows.filter fun r => (keyAt j r).isSome).reverse).mergeSort (leRowBy j)).reverse

/-- The `df.sort_values(by=col, ascending=b)` row semantics, following
pandas' `nargsort` with its default `na_position='last'`: rows with a
missing key are set aside in input order and appended AFTER the sorted
present-key rows, in both directions. -/
def sortRowsBy (j : Nat) (ascending : Bool) (rows : List Row) : List Row :=
  sortedPresent j ascending rows ++ (rows.filter fun r => (keyAt j r).isNone)

/-- The function `sort_data(df, column_name, ascending)`: a no-op returning the input
unchanged when the column is absent (diagnostic print only), otherwise
`sort_values` on that column. -/
def sort_data (t : Table) (column_name : String) (ascending : Bool) : Table :=
  if column_name ∈ t.header then
    ⟨t.header, sortRowsBy (t.header.indexOf column_name) ascending t.rows⟩
  else t

/-- The cell in row `i`, column `j` (out-of-range reads give `none`). -/
def cellAt (t : Table) (i j : Nat) : Cell :=
  (t.rows.getD i []).getD j none

/-- A small well-formed table: a text column with one missing cell and a
numeric column with one missing cell (mean of the present values 25 and
35 is 30). -/
def sampleTable : Table :=
  ⟨["name", "age"],
   [[some (.txt "Alice"), some (.num 25)],
    [none, some (.num 35)],
    [some (.txt "Eve"), none]]⟩

/-- A table whose single (numeric) column is entirely missing. -/
def allMissingTable : Table :=
  ⟨["salary"], [[none], [none]]⟩

/-- A table with one missing and one present sort key. -/
def sortTable : Table :=
  ⟨["age"], [[none], [some (.num 5)]]⟩

/-! ### Deduplication lemmas -/

theorem mem_dedupeGo (a : Row) (l : List Row) :
    ∀ seen, a ∈ dedupeGo seen l ↔ a ∈ l ∧ a ∉ seen := by
  induction l with
  | nil => intro seen; simp [dedupeGo]
  | cons r rs ih =>
    intro seen
    by_cases hr : r ∈ seen
    · rw [dedupeGo, if_pos hr, ih seen]
      constructor
      · rintro ⟨h1, h2⟩
        exact ⟨List.mem_cons_of_mem _ h1, h2⟩
      · rintro ⟨h1, h2⟩
        rcases List.mem_cons.mp h1 with h | h
        · exact absurd (h ▸ hr) h2
        · exact ⟨h, h2⟩
    · rw [dedupeGo, if_neg hr]
      rw [List.mem_cons, ih (r :: seen)]
      constructor
      · rintro (h | ⟨h1, h2⟩)
        · exact ⟨h ▸ List.mem_cons_self r rs, h ▸ hr⟩
        · exact ⟨List.mem_cons_of_mem _ h1, fun hs => h2 (List.mem_cons_of_mem _ hs)⟩
      · rintro ⟨h1, h2⟩
        rcases List.mem_cons.mp h1 with h | h
        · exact Or.inl h
        · by_cases har : a = r
          · exact Or.inl har
          · exact Or.inr ⟨h, fun hs => (List.mem_cons.mp hs).elim har h2⟩

theorem dedupeGo_sublist (l : List Row) : ∀ seen, (dedupeGo seen l).Sublist l := by
  induction l with
  | nil => intro _; simp [dedupeGo]
  | cons r rs ih =>
    intro seen
    rw [dedupeGo]
    by_cases hr : r ∈ seen
    · rw [if_pos hr]
      exact (ih seen).cons r
    · rw [if_neg hr]
      exact (ih (r :: seen)).cons₂ r

theorem dedupeGo_nodup (l : List Row) : ∀ seen, (dedupeGo seen l).Nodup := by
  induction l with
  | nil => intro _; simp [dedupeGo]
  | cons r rs ih =>
    intro seen
    rw [dedupeGo]
    by_cases hr : r ∈ seen
    · rw [if_pos hr]
      exact ih seen
    · rw [if_neg hr]
      refine List.nodup_cons.mpr ⟨?_, ih (r :: seen)⟩
      intro hmem
      exact ((mem_dedupeGo r rs (r :: seen)).mp hmem).2 (List.mem_cons_self r seen)

theorem dedupeGo_eq_self (l : List Row) :
    ∀ seen, l.Nodup → (∀ a ∈ l, a ∉ seen) → dedupeGo seen l = l := by
  induction l with
  | nil => intro _ _ _; rfl
  | cons r rs ih =>
    intro seen hnd hdisj
    rw [dedupeGo, if_neg (hdisj r (List.mem_cons_self r rs))]
    congr 1
    refine ih (r :: seen) (List.nodup_cons.mp hnd).2 ?_
    intro a ha hmem
    rcases List.mem_cons.mp hmem with h | h
    · exact (List.nodup_cons.mp hnd).1 (h ▸ ha)
    · exact hdisj a (List.mem_cons_of_mem _ ha) h

theorem dedupeGo_congr (l : List Row) :
    ∀ s₁ s₂, (∀ a : Row, a ∈ s₁ ↔ a ∈ s₂) → dedupeGo s₁ l = dedupeGo s₂ l := by
  induction l with
  | nil => intro _ _ _; rfl
  | cons r rs ih =>
    intro s₁ s₂ h
    rw [dedupeGo, dedupeGo]
    by_cases hr : r ∈ s₁
    · rw [if_pos hr, if_pos ((h r).mp hr)]
      exact ih s₁ s₂ h
    · rw [if_neg hr, if_neg (fun hc => hr ((h r).mpr hc))]
      congr 1
      refine ih (r :: s₁) (r :: s₂) ?_
      intro a
      rw [List.mem_cons, List.mem_cons]
      exact or_congr Iff.rfl (h a)

theorem foldl_dedupe (l : List Row) :
    ∀ acc, l.foldl (fun acc r => if r ∈ acc then acc else acc ++ [r]) acc
      = acc ++ dedupeGo acc l := by
  induction l with
  | nil => intro acc; simp [dedupeGo]
  | cons r rs ih =>
    intro acc
    rw [List.foldl_cons]
    by_cases hr : r ∈ acc
    · rw [if_pos hr, ih acc, dedupeGo, if_pos hr]
    · rw [if_neg hr, ih (acc ++ [r]), dedupeGo, if_neg hr,
        List.append_assoc, List.singleton_append]
      congr 2
      refine dedupeGo_congr rs (acc ++ [r]) (r :: acc) ?_
      intro a
      rw [List.mem_append, List.mem_singleton, List.mem_cons]
      exact or_comm

/-! ### Claims about deduplication (C8, C9) -/

/-- Claim C8: `remove_duplicates` always succeeds and returns the
subsequence of rows keeping the first occurrence of each row in original
row order and dropping subsequent occurrences; rows are compared by
whole-row equality, in which a missing cell equals a missing cell (this
is the `DecidableEq` on `Row = List (Option Value)` used by
`dedupeGo`).  Stated as: the columns are untouched, the resulting rows
are exactly the spec's left-to-right first-occurrence scan
(`dedupeSpec`), they form a duplicate-free subsequence of the input, and
no row of the input is lost. -/
theorem C8_dedupe_first_occurrence (t : Table) :
    (remove_duplicates t).header = t.header ∧
    (remove_duplicates t).rows = dedupeSpec t.rows ∧
    (remove_duplicates t).rows.Sublist t.rows ∧
    (remove_duplicates t).rows.Nodup ∧
    (∀ r : Row, r ∈ (remove_duplicates t).rows ↔ r ∈ t.rows) := by
  refine ⟨rfl, ?_, dedupeGo_sublist t.rows [], dedupeGo_nodup t.rows [], ?_⟩
  · show dedupeGo [] t.rows = dedupeSpec t.rows
    rw [dedupeSpec, foldl_dedupe t.rows [], List.nil_append]
  · intro r
    rw [show (remove_duplicates t).rows = dedupeGo [] t.rows from rfl,
      mem_dedupeGo r t.rows []]
    simp

/-- Claim C9: deduplication is idempotent —
`remove_duplicates (remove_duplicates t) = remove_duplicates t`. -/
theorem C9_dedupe_idempotent (t : Table) :
    remove_duplicates (remove_duplicates t) = remove_duplicates t := by
  rw [remove_duplicates, remove_duplicates]
  congr 1
  refine dedupeGo_eq_self (dedupeRows t.rows) [] (dedupeGo_nodup t.rows []) ?_
  intro a _ ha
  exact List.not_mem_nil a ha

/-! ### Claims about `clean_missing_values` strategies (C5, C2, C1) -/

/-- Claim C5: `clean(T, "drop")` returns a table containing exactly the
rows of `T` with zero missing cells, each unchanged, in their original
relative order: the result's rows are precisely `T.rows` filtered by
`hasNoMissing`, hence an order-preserving subsequence of `T.rows`, and a
row is kept iff it is a row of `T` with no missing cell. -/
theorem C5_drop_exact (t : Table) :
    ∃ u, clean_missing_values t "drop" = .ok u ∧
      u.header = t.header ∧
      u.rows = t.rows.filter hasNoMissing ∧
      u.rows.Sublist t.rows ∧
      (∀ r : Row, r ∈ u.rows ↔ r ∈ t.rows ∧ hasNoMissing r = true) := by
  refine ⟨⟨t.header, t.rows.filter hasNoMissing⟩, rfl, rfl, rfl,
    List.filter_sublist t.rows, ?_⟩
  intro r
  exact List.mem_filter

/-- Claim C2, counterexample: on strategy `"average"` the code does fail,
but with Python's `UnboundLocalError` (the `return cleaned_df` after both
strategy branches were skipped), not with an `InvalidStrategyError`;
no such error exists anywhere in the code. -/
theorem C2_counterexample :
    clean_missing_values sampleTable "average" = .error .unboundLocalError ∧
    clean_missing_values sampleTable "average" ≠ .error .invalidStrategyError := by
  decide

/-- Claim C2, amended: for every table and every strategy outside
`{"drop", "fill"}`, `clean_missing_values` fails — with an unhandled
`UnboundLocalError` rather than an `InvalidStrategyError` — and produces
no table. -/
theorem C2_invalid_strategy (t : Table) (s : String)
    (h1 : s ≠ "drop") (h2 : s ≠ "fill") :
    clean_missing_values t s = .error .unboundLocalError := by
  rw [clean_missing_values, if_neg h1, if_neg h2]

/-- Witness for `C2_invalid_strategy` at strategy `"average"`. -/
theorem C2_invalid_strategy_witness :
    "average" ≠ "drop" ∧ "average" ≠ "fill" ∧
    clean_missing_values sampleTable "average" = .error .unboundLocalError :=
  ⟨by decide, by decide,
    C2_invalid_strategy sampleTable "average" (by decide) (by decide)⟩

/-- Claim C1, counterexample: on a table whose only (numeric) column is
entirely missing, `clean(T, "fill")` does NOT fail with a
`ComputationError` — it returns a table (the input unchanged: the `NaN`
mean is written over the `NaN` cells, a no-op). -/
theorem C1_counterexample :
    clean_missing_values allMissingTable "fill" = .ok allMissingTable ∧
    clean_missing_values allMissingTable "fill" ≠ .error .computationError := by
  decide

/-! ### Fill lemmas -/

theorem mem_nonMissing (v : Value) (cells : List Cell) :
    v ∈ nonMissing cells ↔ some v ∈ cells := by
  rw [nonMissing, List.mem_filterMap]
  constructor
  · rintro ⟨c, hc, he⟩
    exact he ▸ hc
  · intro h
    exact ⟨some v, h, rfl⟩

theorem mem_numsOf (q : ℚ) (cells : List Cell) :
    q ∈ numsOf cells ↔ some (Value.num q) ∈ cells := by
  rw [numsOf, List.mem_filterMap]
  constructor
  · rintro ⟨c, hc, he⟩
    rcases c with _ | v
    · simp at he
    · rcases v with p | s
      · simp only [Option.some.injEq] at he
        exact he ▸ hc
      · simp at he
  · intro h
    exact ⟨some (Value.num q), h, rfl⟩

theorem isNumericCol_of_allMissing (cells : List Cell)
    (h : nonMissing cells = []) : isNumericCol cells = true := by
  rw [isNumericCol, h]
  rfl

theorem numsOf_eq_nil (cells : List Cell) (h : nonMissing cells = []) :
    numsOf cells = [] := by
  rw [List.eq_nil_iff_forall_not_mem]
  intro q hq
  have hv : Value.num q ∈ nonMissing cells :=
    (mem_nonMissing (Value.num q) cells).mpr ((mem_numsOf q cells).mp hq)
  rw [h] at hv
  exact List.not_mem_nil _ hv

theorem numsOf_ne_nil (cells : List Cell) (hnum : isNumericCol cells = true)
    (hne : nonMissing cells ≠ []) : numsOf cells ≠ [] := by
  intro h0
  rcases List.exists_mem_of_ne_nil _ hne with ⟨v, hv⟩
  rw [isNumericCol] at hnum
  have hp := List.all_eq_true.mp hnum v hv
  rcases v with q | s
  · have : q ∈ numsOf cells :=
      (mem_numsOf q cells).mpr ((mem_nonMissing (Value.num q) cells).mp hv)
    rw [h0] at this
    exact List.not_mem_nil q this
  · exact Bool.false_ne_true hp

theorem fillValue_of_numeric (cells : List Cell)
    (hn : isNumericCol cells = true) (hne : numsOf cells ≠ []) :
    fillValue cells = some (Value.num (meanOf (numsOf cells))) := by
  rw [fillValue, if_pos hn, if_neg hne]

theorem fillValue_of_text (cells : List Cell)
    (hn : isNumericCol cells = false) :
    fillValue cells = some (Value.txt "Unknown") := by
  rw [fillValue, if_neg (by rw [hn]; exact Bool.false_ne_true)]

theorem fillValue_isSome (cells : List Cell)
    (h : isNumericCol cells = true → nonMissing cells ≠ []) :
    (fillValue cells).isSome = true := by
  by_cases hn : isNumericCol cells = true
  · rw [fillValue_of_numeric cells hn (numsOf_ne_nil cells hn (h hn))]
    rfl
  · rw [fillValue_of_text cells (Bool.not_eq_true _ ▸ hn)]
    rfl

theorem fillRow_getD (t : Table) (r : Row) (hr : r.length = t.header.length)
    (j : Nat) (hj : j < t.header.length) :
    (List.zipWith fillCell
        ((List.range t.header.length).map fun k => fillValue (colCells t k)) r).getD j none
      = fillCell (fillValue (colCells t j)) (r.getD j none) := by
  have hjr : j < r.length := hr ▸ hj
  have hz : j < (List.zipWith fillCell
      ((List.range t.header.length).map fun k => fillValue (colCells t k)) r).length := by
    rw [List.length_zipWith, List.length_map, List.length_range, hr]
    exact Nat.lt_min.mpr ⟨hj, hj⟩
  rw [List.getD_eq_getElem?_getD, List.getElem?_eq_getElem hz, Option.getD_some,
    List.getD_eq_getElem?_getD r, List.getElem?_eq_getElem hjr, Option.getD_some,
    List.getElem_zipWith]
  congr 1
  simp

theorem cellAt_fillTable (t : Table) (hwf : wellFormed t) (i j : Nat)
    (hi : i < t.rows.length) (hj : j < t.header.length) :
    cellAt (fillTable t) i j = fillCell (fillValue (colCells t j)) (cellAt t i j) := by
  show ((t.rows.map fun r => List.zipWith fillCell
      ((List.range t.header.length).map fun k => fillValue (colCells t k)) r).getD i []).getD j none
    = fillCell (fillValue (colCells t j)) ((t.rows.getD i []).getD j none)
  have hi' : i < (t.rows.map fun r => List.zipWith fillCell
      ((List.range t.header.length).map fun k => fillValue (colCells t k)) r).length := by
    rw [List.length_map]
    exact hi
  rw [List.getD_eq_getElem?_getD (t.rows.map fun r => List.zipWith fillCell
        ((List.range t.header.length).map fun k => fillValue (colCells t k)) r) i [],
    List.getElem?_eq_getElem hi', Option.getD_some, List.getElem_map,
    List.getD_eq_getElem?_getD t.rows i [], List.getElem?_eq_getElem hi, Option.getD_some]
  exact fillRow_getD t t.rows[i] (hwf t.rows[i] (List.getElem_mem hi)) j hj

theorem fillTable_shape (t : Table) (hwf : wellFormed t) :
    (fillTable t).header = t.header ∧
    (fillTable t).rows.length = t.rows.length ∧
    (∀ r ∈ (fillTable t).rows, r.length = t.header.length) := by
  refine ⟨rfl, List.length_map _ _, ?_⟩
  intro r hr
  rw [show (fillTable t).rows = t.rows.map fun r => List.zipWith fillCell
      ((List.range t.header.length).map fun k => fillValue (colCells t k)) r from rfl] at hr
  rcases List.mem_map.mp hr with ⟨r₀, hr₀, rfl⟩
  rw [List.length_zipWith, List.length_map, List.length_range, hwf r₀ hr₀]
  exact Nat.min_self _

/-! ### Claims about the `fill` strategy (C6, C10, C1) -/

/-- Claim C6: on a well-formed table none of whose numeric columns is
entirely missing, `clean(T, "fill")` succeeds with a table of identical
shape and zero missing cells, in which every missing cell of a numeric
column holds the arithmetic mean of that column's non-missing values and
every missing cell of a textual (non-numeric) column holds the sentinel
`"Unknown"`. -/
theorem C6_fill_complete (t : Table) (hwf : wellFormed t)
    (hns : ∀ j, j < t.header.length →
      isNumericCol (colCells t j) = true → nonMissing (colCells t j) ≠ []) :
    ∃ u, clean_missing_values t "fill" = .ok u ∧
      u.header = t.header ∧
      u.rows.length = t.rows.length ∧
      (∀ r ∈ u.rows, r.length = t.header.length) ∧
      (∀ i j, i < t.rows.length → j < t.header.length →
        (cellAt u i j).isSome = true ∧
        (cellAt t i j = none → isNumericCol (colCells t j) = true →
          cellAt u i j = some (Value.num (meanOf (numsOf (colCells t j))))) ∧
        (cellAt t i j = none → isNumericCol (colCells t j) = false →
          cellAt u i j = some (Value.txt "Unknown"))) := by
  obtain ⟨hh, hlen, hrow⟩ := fillTable_shape t hwf
  refine ⟨fillTable t, rfl, hh, hlen, hrow, ?_⟩
  intro i j hi hj
  rw [cellAt_fillTable t hwf i j hi hj]
  refine ⟨?_, ?_, ?_⟩
  · cases hc : cellAt t i j with
    | some v => rfl
    | none => exact fillValue_isSome (colCells t j) (hns j hj)
  · intro hc hnum
    rw [hc]
    show fillValue (colCells t j) = some (Value.num (meanOf (numsOf (colCells t j))))
    exact fillValue_of_numeric (colCells t j) hnum
      (numsOf_ne_nil (colCells t j) hnum (hns j hj hnum))
  · intro hc htxt
    rw [hc]
    show fillValue (colCells t j) = some (Value.txt "Unknown")
    exact fillValue_of_text (colCells t j) htxt

/-- Witness for `C6_fill_complete` at `sampleTable` (one text column with
a missing cell, one numeric column with a missing cell). -/
theorem C6_fill_complete_witness :
    wellFormed sampleTable ∧
    (∀ j, j < sampleTable.header.length →
      isNumericCol (colCells sampleTable j) = true →
      nonMissing (colCells sampleTable j) ≠ []) ∧
    (∃ u, clean_missing_values sampleTable "fill" = .ok u ∧
      u.header = sampleTable.header ∧
      u.rows.length = sampleTable.rows.length ∧
      (∀ r ∈ u.rows, r.length = sampleTable.header.length) ∧
      (∀ i j, i < sampleTable.rows.length → j < sampleTable.header.length →
        (cellAt u i j).isSome = true ∧
        (cellAt sampleTable i j = none → isNumericCol (colCells sampleTable j) = true →
          cellAt u i j = some (Value.num (meanOf (numsOf (colCells sampleTable j))))) ∧
        (cellAt sampleTable i j = none → isNumericCol (colCells sampleTable j) = false →
          cellAt u i j = some (Value.txt "Unknown")))) :=
  ⟨by decide, by decide, C6_fill_complete sampleTable (by decide) (by decide)⟩

/-- Claim C10: under the same hypotheses as C6, `clean(T, "fill")` is a
frame transformation — it agrees with `T` at every position holding a
present value; only missing cells are rewritten. -/
theorem C10_fill_frame (t : Table) (hwf : wellFormed t)
    (_hns : ∀ j, j < t.header.length →
      isNumericCol (colCells t j) = true → nonMissing (colCells t j) ≠ []) :
    ∃ u, clean_missing_values t "fill" = .ok u ∧
      ∀ i j, i < t.rows.length → j < t.header.length →
        ∀ v : Value, cellAt t i j = some v → cellAt u i j = some v := by
  refine ⟨fillTable t, rfl, ?_⟩
  intro i j hi hj v hv
  rw [cellAt_fillTable t hwf i j hi hj, hv]
  rfl

/-- Witness for `C10_fill_frame` at `sampleTable`. -/
theorem C10_fill_frame_witness :
    wellFormed sampleTable ∧
    (∀ j, j < sampleTable.header.length →
      isNumericCol (colCells sampleTable j) = true →
      nonMissing (colCells sampleTable j) ≠ []) ∧
    (∃ u, clean_missing_values sampleTable "fill" = .ok u ∧
      ∀ i j, i < sampleTable.rows.length → j < sampleTable.header.length →
        ∀ v : Value, cellAt sampleTable i j = some v → cellAt u i j = some v) :=
  ⟨by decide, by decide, C10_fill_frame sampleTable (by decide) (by decide)⟩

/-- Claim C1, amended: on a well-formed table with an all-missing numeric
column, `clean(T, "fill")` does not fail — it succeeds, and that column
is returned unchanged (still entirely missing): `Series.mean()` of an
all-`NaN` column is `NaN` and `fillna(NaN)` writes nothing.  (With every
non-missing value vacuously numeric, "all-missing numeric column" is
exactly `nonMissing (colCells t j) = []`.) -/
theorem C1_fill_all_missing_no_error (t : Table) (hwf : wellFormed t)
    (j : Nat) (hj : j < t.header.length)
    (hall : nonMissing (colCells t j) = []) :
    ∃ u, clean_missing_values t "fill" = .ok u ∧
      ∀ i, i < t.rows.length → cellAt u i j = cellAt t i j := by
  refine ⟨fillTable t, rfl, ?_⟩
  intro i hi
  rw [cellAt_fillTable t hwf i j hi hj, fillValue, if_pos (isNumericCol_of_allMissing _ hall),
    if_pos (numsOf_eq_nil _ hall)]
  cases cellAt t i j with
  | some v => rfl
  | none => rfl

/-- Witness for `C1_fill_all_missing_no_error` at `allMissingTable`. -/
theorem C1_fill_all_missing_no_error_witness :
    wellFormed allMissingTable ∧
    0 < allMissingTable.header.length ∧
    nonMissing (colCells allMissingTable 0) = [] ∧
    (∃ u, clean_missing_values allMissingTable "fill" = .ok u ∧
      ∀ i, i < allMissingTable.rows.length → cellAt u i 0 = cellAt allMissingTable i 0) :=
  ⟨by decide, by decide, by decide,
    C1_fill_all_missing_no_error allMissingTable (by decide) 0 (by decide) (by decide)⟩

/-! ### Claims about the sorter (C7, C3) -/

/-- Claim C7: sorting by a column name absent from the table raises no
error and is a no-op — `sort_data` returns the input table unchanged (the
set of valid column names is only printed, which is not modelled). -/
theorem C7_sort_absent_column_noop (t : Table) (c : String) (b : Bool)
    (hc : c ∉ t.header) :
    sort_data t c b = t := by
  rw [sort_data, if_neg hc]

/-- Witness for `C7_sort_absent_column_noop`: sorting `sampleTable` by
the absent column `"height"`. -/
theorem C7_sort_absent_column_noop_witness :
    "height" ∉ sampleTable.header ∧ sort_data sampleTable "height" true = sampleTable :=
  ⟨by decide, C7_sort_absent_column_noop sampleTable "height" true (by decide)⟩

/-! ### Sorter lemmas -/

theorem pairwise_imp_left {P Q : Row → Prop} (l : List Row)
    (h : ∀ r ∈ l, ¬ P r) : l.Pairwise fun r s => P r → Q s := by
  induction l with
  | nil => exact List.Pairwise.nil
  | cons a l ih =>
    refine List.Pairwise.cons ?_ (ih fun r hr => h r (List.mem_cons_of_mem a hr))
    intro b _ hP
    exact absurd hP (h a (List.mem_cons_self a l))

theorem pairwise_imp_right {P Q : Row → Prop} (l : List Row)
    (h : ∀ s ∈ l, Q s) : l.Pairwise fun r s => P r → Q s := by
  induction l with
  | nil => exact List.Pairwise.nil
  | cons a l ih =>
    exact List.Pairwise.cons (fun b hb _ => h b (List.mem_cons_of_mem a hb))
      (ih fun s hs => h s (List.mem_cons_of_mem a hs))

theorem mem_sortedPresent (r : Row) (j : Nat) (b : Bool) (rows : List Row) :
    r ∈ sortedPresent j b rows ↔ r ∈ rows.filter fun s => (keyAt j s).isSome := by
  rw [sortedPresent]
  cases b with
  | true => rw [if_pos rfl, List.mem_mergeSort]
  | false =>
    rw [if_neg Bool.false_ne_true, List.mem_reverse, List.mem_mergeSort,
      List.mem_reverse]

theorem perm_sortedPresent (j : Nat) (b : Bool) (rows : List Row) :
    (sortedPresent j b rows).Perm (rows.filter fun s => (keyAt j s).isSome) := by
  rw [sortedPresent]
  cases b with
  | true => exact List.mergeSort_perm _ _
  | false =>
    rw [if_neg Bool.false_ne_true]
    refine ((List.reverse_perm _).trans (List.mergeSort_perm _ _)).trans ?_
    exact List.reverse_perm _

theorem perm_sortRowsBy (j : Nat) (b : Bool) (rows : List Row) :
    (sortRowsBy j b rows).Perm rows := by
  rw [sortRowsBy]
  refine ((perm_sortedPresent j b rows).append_right _).trans ?_
  have he : (fun r : Row => (keyAt j r).isNone)
      = fun r : Row => !(keyAt j r).isSome := by
    funext r
    cases keyAt j r with
    | some v => rfl
    | none => rfl
  rw [he]
  exact List.filter_append_perm _ rows

/-! ### Claims about missing-key ordering and stability (C3, C4) -/

/-- Claim C3, counterexample: with `ascending = false` the row whose key
is missing comes LAST, not first — `sort_values` uses
`na_position='last'` in both directions, so missing keys do not behave
as "greater than any present value before the direction is applied". -/
theorem C3_counterexample :
    sort_data sortTable "age" false = ⟨["age"], [[some (Value.num 5)], [none]]⟩ ∧
    (sort_data sortTable "age" false).rows ≠ [[none], [some (Value.num 5)]] := by
  have h : sort_data sortTable "age" false = ⟨["age"], [[some (Value.num 5)], [none]]⟩ := by
    simp [sort_data, sortTable, sortRowsBy, sortedPresent, keyAt]
  refine ⟨h, ?_⟩
  rw [h]
  decide

/-- Claim C3, amended: for every table and existing column, `sort_data`
returns a permutation of the rows in which every row with a missing key
comes after every row with a present key, in BOTH directions
(`na_position='last'`): once a row with a missing key appears, all later
rows have missing keys. -/
theorem C3_missing_keys_last (t : Table) (c : String) (b : Bool)
    (hc : c ∈ t.header) :
    (sort_data t c b).rows.Perm t.rows ∧
    (sort_data t c b).rows.Pairwise
      (fun r s => (keyAt (t.header.indexOf c) r).isNone = true →
        (keyAt (t.header.indexOf c) s).isNone = true) := by
  rw [sort_data, if_pos hc]
  refine ⟨perm_sortRowsBy _ b t.rows, ?_⟩
  rw [sortRowsBy, List.pairwise_append]
  refine ⟨?_, ?_, ?_⟩
  · refine pairwise_imp_left _ ?_
    intro r hr hn
    have hs := (List.mem_filter.mp ((mem_sortedPresent r _ b t.rows).mp hr)).2
    rw [Option.isNone_iff_eq_none.mp hn] at hs
    exact Bool.false_ne_true hs
  · refine pairwise_imp_right _ ?_
    intro s hs
    exact (List.mem_filter.mp hs).2
  · intro a _ s hs _
    exact (List.mem_filter.mp hs).2

/-- Witness for `C3_missing_keys_last` at `sortTable`, descending. -/
theorem C3_missing_keys_last_witness :
    "age" ∈ sortTable.header ∧
    ((sort_data sortTable "age" false).rows.Perm sortTable.rows ∧
     (sort_data sortTable "age" false).rows.Pairwise
       (fun r s => (keyAt (sortTable.header.indexOf "age") r).isNone = true →
         (keyAt (sortTable.header.indexOf "age") s).isNone = true)) :=
  ⟨by decide, C3_missing_keys_last sortTable "age" false (by decide)⟩

end DataCleaner
